import Mathlib

/-!
Shallow embedding of the search and ranking subsystem of the notes-mcp
repository (src/index.ts), together with theorems checking the repository's
natural-language specification against it.

The external pieces — the AppleScript note store behind `searchNotes`,
`Date.now()` and `new Date(s).getTime()` — enter as explicit function
parameters; everything the TypeScript file itself computes (tokenization,
per-term scoring, the phrase and recency bonuses, rounding, sorting,
truncation, the tool-handler validation and the default limit) is embedded
as executable Lean definitions over `String`, `List` and `ℚ`.
-/

namespace NotesMCP

/-- A note as produced by candidate retrieval (`searchNotes`, src/index.ts
403-491): the generated AppleScript emits exactly these fields (the `body`
field of the TypeScript `Note` interface is absent from retrieval output). -/
structure Note where
  id : String
  name : String
  plaintext : String
  folder : String
  account : String
  creationDate : String
  modificationDate : String
deriving DecidableEq

/-- Mirrors `interface SearchResult extends Note { relevanceScore: number;
matchedIn: string[] }` (src/index.ts 579-582). -/
structure SearchResult extends Note where
  relevanceScore : ℚ
  matchedIn : List String
deriving DecidableEq

/-- Scanner for `countOcc` below.  The third argument is the number of
characters still covered by the previous match: a fresh match may only start
once it reaches zero, which is how a global regex resumes searching after the
end of each match. -/
def countOccAux (pat : List Char) : List Char → Nat → Nat
  | [], _ => 0
  | _ :: rest, Nat.succ k => countOccAux pat rest k
  | c :: rest, 0 =>
    if pat ≠ [] ∧ List.take pat.length (c :: rest) = pat then
      countOccAux pat rest (pat.length - 1) + 1
    else
      countOccAux pat rest 0

/-- Number of leftmost, non-overlapping occurrences of `pat` in `text`: the
count produced by `(text.match(new RegExp(pat, 'gi')) || []).length`
(src/index.ts 604 and 611) for a pattern free of regex metacharacters — a
global regex resumes searching after the end of each match, so counted
occurrences never overlap. -/
def countOcc (pat text : List Char) : Nat := countOccAux pat text 0

/-- JavaScript `text.includes(pat)` (src/index.ts 618 and 621): substring
containment; the empty pattern is contained in everything. -/
def jsIncludes (pat : List Char) : List Char → Bool
  | [] => pat.isEmpty
  | c :: rest => decide (List.take pat.length (c :: rest) = pat) || jsIncludes pat rest

/-- JavaScript `s.toLowerCase()` restricted to ASCII, the alphabet the
pipeline's own store-side `toLowerCase` helper supports (src/index.ts
465-478): every other character passes through unchanged, which is also what
`Char.toLower` does. -/
def jsToLower (s : String) : String := ⟨s.data.map Char.toLower⟩

/-- Split at every whitespace character.  JS `split(/\s+/)` (src/index.ts
594) differs from splitting at each single separator only by the empty pieces
between consecutive separators, and the length filter of `tokenize` removes
those. -/
def splitWs : List Char → List (List Char)
  | [] => [[]]
  | c :: rest =>
    if c.isWhitespace then [] :: splitWs rest
    else
      match splitWs rest with
      | w :: ws => (c :: w) :: ws
      | [] => [[c]]

/-- `query.toLowerCase().split(/\s+/).filter(t => t.length > 1)`
(src/index.ts 594). -/
def tokenize (query : String) : List String :=
  ((splitWs (jsToLower query).data).filter (fun w => 1 < w.length)).map String.mk

/-- One iteration of `for (const term of queryTerms)` in `searchNotesAdvanced`
(src/index.ts 602-624), acting on the accumulator (score, matchedIn).
`name`, `content` and `lq` are the already-lowercased title, plaintext body
and query. -/
def termStep (name content lq : String) (acc : ℚ × List String) (term : String) :
    ℚ × List String :=
  let titleMatches := countOcc term.data name.data
  let acc1 : ℚ × List String :=
    if 0 < titleMatches then
      (acc.1 + (titleMatches : ℚ) * 3,
        if "title" ∈ acc.2 then acc.2 else acc.2 ++ ["title"])
    else acc
  let contentMatches := countOcc term.data content.data
  let acc2 : ℚ × List String :=
    if 0 < contentMatches then
      (acc1.1 + (contentMatches : ℚ),
        if "content" ∈ acc1.2 then acc1.2 else acc1.2 ++ ["content"])
    else acc1
  let s3 : ℚ := if jsIncludes lq.data name.data then acc2.1 + 10 else acc2.1
  let s4 : ℚ := if jsIncludes lq.data content.data then s3 + 5 else s3
  (s4, acc2.2)

/-- The recency branch of `searchNotesAdvanced` (src/index.ts 629-631):
`if (daysSinceModified < 7) score += Math.max(0, (7 - daysSinceModified) / 7) * 2`. -/
def recencyBonus (daysSinceModified : ℚ) : ℚ :=
  if daysSinceModified < 7 then max 0 ((7 - daysSinceModified) / 7) * 2 else 0

/-- JavaScript `Math.round`: nearest integer, halves toward positive infinity. -/
def jsRound (x : ℚ) : ℤ := ⌊x + 1 / 2⌋

/-- `Math.round(score * 100) / 100` (src/index.ts 635). -/
def round2 (x : ℚ) : ℚ := (jsRound (x * 100) : ℚ) / 100

/-- Pre-rounding score and matchedIn of one candidate: the body of
`notes.map(note => ...)` (src/index.ts 596-631), before the rounding of line
635.  `now` stands for `Date.now()` and `getTime` for
`s => new Date(s).getTime()`, both external runtime facilities. -/
def rawScore (queryTerms : List String) (query : String) (now : ℚ)
    (getTime : String → ℚ) (note : Note) : ℚ × List String :=
  let name := jsToLower note.name
  let content := jsToLower note.plaintext
  let lq := jsToLower query
  let res := queryTerms.foldl (termStep name content lq) (0, [])
  let daysSinceModified := (now - getTime note.modificationDate) / (1000 * 60 * 60 * 24)
  (res.1 + recencyBonus daysSinceModified, res.2)

/-- The `SearchResult` built for one candidate (src/index.ts 633-637):
`{ ...note, relevanceScore: Math.round(score * 100) / 100, matchedIn }`. -/
def scoreNote (queryTerms : List String) (query : String) (now : ℚ)
    (getTime : String → ℚ) (note : Note) : SearchResult :=
  let r := rawScore queryTerms query now getTime note
  { toNote := note, relevanceScore := round2 r.1, matchedIn := r.2 }

/-- Insert into a descending-by-score list, after every earlier element of
score ≥ the inserted one. -/
def insertByRelevance (x : SearchResult) : List SearchResult → List SearchResult
  | [] => [x]
  | y :: ys =>
    if y.relevanceScore ≤ x.relevanceScore then x :: y :: ys
    else y :: insertByRelevance x ys

/-- The unique stable descending order that ECMAScript guarantees for
`results.sort((a, b) => b.relevanceScore - a.relevanceScore)`
(src/index.ts 642): `Array.prototype.sort` is required to be stable, so any
stable sort realises the same list. -/
def sortByRelevance : List SearchResult → List SearchResult
  | [] => []
  | x :: xs => insertByRelevance x (sortByRelevance xs)

/-- `arr.slice(0, e)` of ECMAScript (src/index.ts 643): a negative end index
counts from the end of the array, clamped at zero. -/
def jsSliceTo (l : List α) (e : Int) : List α :=
  if 0 ≤ e then l.take e.toNat else l.take ((l.length : Int) + e).toNat

/-- `const { folder, account, limit = 50 } = options` (src/index.ts 407 and
588): a JavaScript destructuring default replaces only a missing (undefined)
value; `0` and negative numbers pass through unchanged. -/
def effectiveLimit (limit : Option Int) : Int := limit.getD 50

/-- `searchNotes` (src/index.ts 403-491).  The store scan itself runs in
AppleScript outside the embedded language, so it enters as the abstract
function `store query folder account limit`; the TypeScript wrapper resolves
the default limit before generating the script. -/
def searchNotes (store : String → Option String → Option String → Int → List Note)
    (query : String) (folder account : Option String) (limit : Option Int) :
    List Note :=
  store query folder account (effectiveLimit limit)

/-- Lines 594-643 of src/index.ts: tokenize, score each candidate, sort by
relevance, truncate with `slice(0, limit)`. -/
def rankCandidates (query : String) (now : ℚ) (getTime : String → ℚ) (lim : Int)
    (notes : List Note) : List SearchResult :=
  let queryTerms := tokenize query
  let results := notes.map (scoreNote queryTerms query now getTime)
  jsSliceTo (sortByRelevance results) lim

/-- `searchNotesAdvanced` (src/index.ts 584-644): resolve the default limit,
fetch candidates with `searchNotes(query, { folder, account, limit: limit * 2 })`,
then rank. -/
def searchNotesAdvanced
    (retrieve : String → Option String → Option String → Int → List Note)
    (now : ℚ) (getTime : String → ℚ) (query : String)
    (folder account : Option String) (limit : Option Int) : List SearchResult :=
  let lim := effectiveLimit limit
  rankCandidates query now getTime lim
    (searchNotes retrieve query folder account (some (lim * 2)))

/-- The `notes_search` branch of `handleToolCall` (src/index.ts 986-994):
`if (!args.query) throw new Error("query is required")`.  For a string-typed
argument the falsy values are exactly `undefined` and the empty string. -/
def handleSearchTool (store : String → Option String → Option String → Int → List Note)
    (query : Option String) (folder account : Option String) (limit : Option Int) :
    Except String (List Note) :=
  match query with
  | none => Except.error "query is required"
  | some q =>
    if q = "" then Except.error "query is required"
    else Except.ok (searchNotes store q folder account limit)

/-- The `notes_search_advanced` branch of `handleToolCall`
(src/index.ts 996-1004). -/
def handleSearchAdvancedTool
    (retrieve : String → Option String → Option String → Int → List Note)
    (now : ℚ) (getTime : String → ℚ) (query : Option String)
    (folder account : Option String) (limit : Option Int) :
    Except String (List SearchResult) :=
  match query with
  | none => Except.error "query is required"
  | some q =>
    if q = "" then Except.error "query is required"
    else Except.ok (searchNotesAdvanced retrieve now getTime q folder account limit)

/-- Modelled from the spec: the number of ALL overlapping case-insensitive
occurrences of a term, as the spec's ranking step words it ("Count all
overlapping case-insensitive occurrences of the term in the title") — one
candidate start position per character of the text.  Stated only to compare
against `countOcc`, the count the source actually computes. -/
def countOverlapping (pat : List Char) : List Char → Nat
  | [] => 0
  | c :: rest =>
    (if pat ≠ [] ∧ List.take pat.length (c :: rest) = pat then 1 else 0) +
      countOverlapping pat rest

/-- A concrete note with no occurrence of the test queries, used by the
concrete evaluations below. -/
def noteA : Note :=
  { id := "n1", name := "xyz", plaintext := "qqq", folder := "Notes",
    account := "iCloud", creationDate := "2024-01-01T00:00:00",
    modificationDate := "2024-01-02T00:00:00" }

/-- A concrete note whose title holds overlapping occurrences of "aa". -/
def noteAaa : Note :=
  { id := "n2", name := "aaa", plaintext := "zzz", folder := "Notes",
    account := "iCloud", creationDate := "2024-01-01T00:00:00",
    modificationDate := "2024-01-02T00:00:00" }

/-- A concrete note whose title contains the raw query "a b" while every
token of that query is a single character. -/
def noteAB : Note :=
  { id := "n3", name := "x a b y", plaintext := "qq", folder := "Notes",
    account := "iCloud", creationDate := "2024-01-01T00:00:00",
    modificationDate := "2024-01-02T00:00:00" }

/-! ## Lemmas about the scoring loop -/

/-- The score component of one term step as one closed formula: an absent
match contributes zero, so the two guarded additions collapse. -/
lemma termStep_fst (name content lq : String) (acc : ℚ × List String) (t : String) :
    (termStep name content lq acc t).1
      = acc.1 + 3 * (countOcc t.data name.data : ℚ) + (countOcc t.data content.data : ℚ)
        + (if jsIncludes lq.data name.data then (10 : ℚ) else 0)
        + (if jsIncludes lq.data content.data then (5 : ℚ) else 0) := by
  unfold termStep
  rcases Nat.eq_zero_or_pos (countOcc t.data name.data) with h1 | h1 <;>
    rcases Nat.eq_zero_or_pos (countOcc t.data content.data) with h2 | h2 <;>
      simp [h1, h2, Nat.pos_iff_ne_zero] <;> split_ifs <;> ring

/-- The matchedIn component of one term step: each marker is appended at most
once, after the markers already present. -/
lemma termStep_snd (name content lq : String) (acc : ℚ × List String) (t : String) :
    (termStep name content lq acc t).2
      = acc.2
        ++ (if 0 < countOcc t.data name.data ∧ "title" ∉ acc.2 then ["title"] else [])
        ++ (if 0 < countOcc t.data content.data ∧ "content" ∉ acc.2 then ["content"] else []) := by
  unfold termStep
  have hne : ("content" : String) ≠ "title" := by decide
  by_cases h1 : 0 < countOcc t.data name.data <;>
    by_cases h2 : 0 < countOcc t.data content.data <;>
      by_cases hT : "title" ∈ acc.2 <;> by_cases hC : "content" ∈ acc.2 <;>
        simp [h1, h2, hT, hC, hne]

/-- Membership form of `termStep_snd`. -/
lemma mem_termStep_snd (name content lq : String) (acc : ℚ × List String) (t : String)
    (x : String) :
    x ∈ (termStep name content lq acc t).2 ↔
      x ∈ acc.2 ∨ (x = "title" ∧ 0 < countOcc t.data name.data)
        ∨ (x = "content" ∧ 0 < countOcc t.data content.data) := by
  rw [termStep_snd]
  by_cases hT : "title" ∈ acc.2 <;> by_cases hC : "content" ∈ acc.2 <;>
    by_cases h1 : 0 < countOcc t.data name.data <;>
      by_cases h2 : 0 < countOcc t.data content.data <;>
        simp [hT, hC, h1, h2] <;> aesop

/-- Closed form of the score accumulated by the whole term loop. -/
lemma termScore_fst (name content lq : String) :
    ∀ (terms : List String) (acc : ℚ × List String),
    (List.foldl (termStep name content lq) acc terms).1
      = acc.1
        + (terms.map (fun t => 3 * (countOcc t.data name.data : ℚ)
            + (countOcc t.data content.data : ℚ))).sum
        + (terms.length : ℚ)
            * ((if jsIncludes lq.data name.data then (10 : ℚ) else 0)
               + (if jsIncludes lq.data content.data then (5 : ℚ) else 0)) := by
  intro terms
  induction terms with
  | nil => intro acc; simp
  | cons t ts ih =>
    intro acc
    simp only [List.foldl_cons, List.map_cons, List.sum_cons, List.length_cons]
    rw [ih, termStep_fst]
    push_cast
    ring

/-- Membership in the matchedIn list accumulated by the whole term loop. -/
lemma mem_termScore_snd (name content lq : String) :
    ∀ (terms : List String) (acc : ℚ × List String) (x : String),
    (x ∈ (List.foldl (termStep name content lq) acc terms).2 ↔
      x ∈ acc.2 ∨ (x = "title" ∧ ∃ t ∈ terms, 0 < countOcc t.data name.data)
        ∨ (x = "content" ∧ ∃ t ∈ terms, 0 < countOcc t.data content.data)) := by
  intro terms
  induction terms with
  | nil => intro acc x; simp
  | cons t ts ih =>
    intro acc x
    rw [List.foldl_cons, ih, mem_termStep_snd]
    simp only [List.exists_mem_cons_iff]
    itauto

/-- Closed form of the pre-rounding score of one candidate. -/
lemma rawScore_fst_eq (queryTerms : List String) (query : String) (now : ℚ)
    (getTime : String → ℚ) (note : Note) :
    (rawScore queryTerms query now getTime note).1
      = (queryTerms.map (fun t =>
            3 * (countOcc t.data (jsToLower note.name).data : ℚ)
              + (countOcc t.data (jsToLower note.plaintext).data : ℚ))).sum
        + (queryTerms.length : ℚ)
            * ((if jsIncludes (jsToLower query).data (jsToLower note.name).data
                  then (10 : ℚ) else 0)
               + (if jsIncludes (jsToLower query).data (jsToLower note.plaintext).data
                  then (5 : ℚ) else 0))
        + recencyBonus ((now - getTime note.modificationDate) / (1000 * 60 * 60 * 24)) := by
  show (List.foldl
      (termStep (jsToLower note.name) (jsToLower note.plaintext) (jsToLower query))
      (0, []) queryTerms).1 + recencyBonus _ = _
  rw [termScore_fst]
  ring

/-- The matchedIn component of a candidate's raw score. -/
lemma rawScore_snd_eq (queryTerms : List String) (query : String) (now : ℚ)
    (getTime : String → ℚ) (note : Note) :
    (rawScore queryTerms query now getTime note).2
      = (queryTerms.foldl
          (termStep (jsToLower note.name) (jsToLower note.plaintext) (jsToLower query))
          (0, [])).2 := rfl

/-- The recency bonus is never negative. -/
lemma recencyBonus_nonneg (d : ℚ) : 0 ≤ recencyBonus d := by
  unfold recencyBonus
  split_ifs
  · exact mul_nonneg (le_max_left 0 _) (by norm_num)
  · exact le_refl 0

/-- The pre-rounding score is never negative. -/
lemma rawScore_fst_nonneg (queryTerms : List String) (query : String) (now : ℚ)
    (getTime : String → ℚ) (note : Note) :
    0 ≤ (rawScore queryTerms query now getTime note).1 := by
  rw [rawScore_fst_eq]
  have hsum : 0 ≤ (queryTerms.map (fun t =>
      3 * (countOcc t.data (jsToLower note.name).data : ℚ)
        + (countOcc t.data (jsToLower note.plaintext).data : ℚ))).sum := by
    refine List.sum_nonneg ?_
    intro x hx
    rcases List.mem_map.mp hx with ⟨t, -, rfl⟩
    positivity
  have hph : 0 ≤ (queryTerms.length : ℚ)
      * ((if jsIncludes (jsToLower query).data (jsToLower note.name).data
            then (10 : ℚ) else 0)
         + (if jsIncludes (jsToLower query).data (jsToLower note.plaintext).data
            then (5 : ℚ) else 0)) := by
    refine mul_nonneg (by positivity) (add_nonneg ?_ ?_) <;> split_ifs <;> norm_num
  have hrec := recencyBonus_nonneg ((now - getTime note.modificationDate) / (1000 * 60 * 60 * 24))
  linarith

/-- Rounding preserves non-negativity: JS `Math.round(x * 100) / 100` of a
non-negative number is non-negative. -/
lemma round2_nonneg {x : ℚ} (hx : 0 ≤ x) : 0 ≤ round2 x := by
  unfold round2 jsRound
  have h : (0 : ℤ) ≤ ⌊x * 100 + 1 / 2⌋ := Int.floor_nonneg.mpr (by positivity)
  have h' : (0 : ℚ) ≤ (⌊x * 100 + 1 / 2⌋ : ℚ) := by exact_mod_cast h
  positivity

/-! ## Lemmas about the stable sort and the truncation -/

/-- Membership in an insertion. -/
lemma mem_insertByRelevance (x a : SearchResult) :
    ∀ l, a ∈ insertByRelevance x l ↔ a = x ∨ a ∈ l := by
  intro l
  induction l with
  | nil => simp [insertByRelevance]
  | cons y ys ih =>
    unfold insertByRelevance
    split_ifs
    · simp
    · simp only [List.mem_cons, ih]
      tauto

/-- Sorting permutes membership. -/
lemma mem_sortByRelevance (a : SearchResult) :
    ∀ l, a ∈ sortByRelevance l ↔ a ∈ l := by
  intro l
  induction l with
  | nil => simp [sortByRelevance]
  | cons y ys ih => simp [sortByRelevance, mem_insertByRelevance, ih]

/-- Inserting into a descending list keeps it descending. -/
lemma pairwise_insertByRelevance (x : SearchResult) :
    ∀ l : List SearchResult,
    l.Pairwise (fun a b => b.relevanceScore ≤ a.relevanceScore) →
    (insertByRelevance x l).Pairwise (fun a b => b.relevanceScore ≤ a.relevanceScore) := by
  intro l
  induction l with
  | nil => intro _; simp [insertByRelevance]
  | cons y ys ih =>
    intro h
    rcases List.pairwise_cons.mp h with ⟨hy, hys⟩
    unfold insertByRelevance
    split_ifs with hcmp
    · refine List.pairwise_cons.mpr ⟨?_, h⟩
      intro b hb
      rcases List.mem_cons.mp hb with rfl | hb
      · exact hcmp
      · exact le_trans (hy b hb) hcmp
    · refine List.pairwise_cons.mpr ⟨?_, ih hys⟩
      intro b hb
      rcases (mem_insertByRelevance x b ys).mp hb with rfl | hb
      · exact le_of_lt (not_le.mp hcmp)
      · exact hy b hb

/-- The sort's output is descending in `relevanceScore`. -/
lemma pairwise_sortByRelevance :
    ∀ l : List SearchResult,
    (sortByRelevance l).Pairwise (fun a b => b.relevanceScore ≤ a.relevanceScore) := by
  intro l
  induction l with
  | nil => simp [sortByRelevance]
  | cons x xs ih => exact pairwise_insertByRelevance x _ ih

/-- Inserting interacts with filtering by one score value: the skipped prefix
consists of strictly greater scores, so the inserted element lands in front of
every equal-scored element. -/
lemma filter_insertByRelevance (s : ℚ) (x : SearchResult) :
    ∀ l : List SearchResult,
    (insertByRelevance x l).filter (fun r => decide (r.relevanceScore = s))
      = if x.relevanceScore = s
          then x :: l.filter (fun r => decide (r.relevanceScore = s))
          else l.filter (fun r => decide (r.relevanceScore = s)) := by
  intro l
  induction l with
  | nil =>
    simp only [insertByRelevance, List.filter]
    split_ifs with hx <;> simp [hx]
  | cons y ys ih =>
    unfold insertByRelevance
    by_cases hcmp : y.relevanceScore ≤ x.relevanceScore
    · rw [if_pos hcmp]
      by_cases hx : x.relevanceScore = s <;> by_cases hy : y.relevanceScore = s <;>
        simp [List.filter_cons, hx, hy]
    · rw [if_neg hcmp]
      by_cases hx : x.relevanceScore = s
      · by_cases hy : y.relevanceScore = s
        · exact absurd (le_of_eq (hy.trans hx.symm)) hcmp
        · simp [List.filter_cons, ih, hx, hy]
      · by_cases hy : y.relevanceScore = s <;> simp [List.filter_cons, ih, hx, hy]

/-- Stability: sorting does not reorder the elements of any one score value. -/
lemma filter_sortByRelevance (s : ℚ) :
    ∀ l : List SearchResult,
    (sortByRelevance l).filter (fun r => decide (r.relevanceScore = s))
      = l.filter (fun r => decide (r.relevanceScore = s)) := by
  intro l
  induction l with
  | nil => rfl
  | cons x xs ih =>
    show (insertByRelevance x (sortByRelevance xs)).filter _ = _
    rw [filter_insertByRelevance, ih, List.filter_cons]
    split_ifs with h1 h2 <;> simp_all

/-- The sort preserves length. -/
lemma length_sortByRelevance : ∀ l : List SearchResult,
    (sortByRelevance l).length = l.length := by
  have hins : ∀ (x : SearchResult) (l : List SearchResult),
      (insertByRelevance x l).length = l.length + 1 := by
    intro x l
    induction l with
    | nil => rfl
    | cons y ys ih => unfold insertByRelevance; split_ifs <;> simp [ih]
  intro l
  induction l with
  | nil => rfl
  | cons x xs ih => show (insertByRelevance x (sortByRelevance xs)).length = _; simp [hins, ih]

/-- Truncation yields a sublist. -/
lemma jsSliceTo_sublist (l : List α) (e : Int) : (jsSliceTo l e).Sublist l := by
  unfold jsSliceTo
  split_ifs <;> exact List.take_sublist _ _

/-- Truncation with a non-negative end takes at most that many elements. -/
lemma length_jsSliceTo_le (l : List α) (e : Int) (he : 0 ≤ e) :
    (jsSliceTo l e).length ≤ e.toNat := by
  unfold jsSliceTo
  rw [if_pos he]
  simp [List.length_take]

/-- Truncation never lengthens the list. -/
lemma length_jsSliceTo_le_length (l : List α) (e : Int) :
    (jsSliceTo l e).length ≤ l.length :=
  (jsSliceTo_sublist l e).length_le

/-! ## Containment and tokenization lemmas -/

/-- For a non-empty pattern, a positive occurrence count is exactly substring
containment. -/
lemma countOcc_pos_iff (pat : List Char) (hp : pat ≠ []) :
    ∀ text : List Char, (0 < countOcc pat text ↔ jsIncludes pat text = true) := by
  intro text
  induction text with
  | nil => simp [countOcc, countOccAux, jsIncludes, hp]
  | cons c rest ih =>
    by_cases h : List.take pat.length (c :: rest) = pat
    · simp [countOcc, countOccAux, jsIncludes, h, hp]
    · simp only [countOcc, countOccAux, jsIncludes] at ih ⊢
      simp [h, hp, ih]

/-- Every token produced by `tokenize` has more than one character. -/
lemma mem_tokenize_length {q t : String} (ht : t ∈ tokenize q) : 1 < t.data.length := by
  unfold tokenize at ht
  rcases List.mem_map.mp ht with ⟨w, hw, rfl⟩
  rcases List.mem_filter.mp hw with ⟨-, hlen⟩
  simpa using hlen

/-- Every token produced by `tokenize` is non-empty. -/
lemma mem_tokenize_ne_nil {q t : String} (ht : t ∈ tokenize q) : t.data ≠ [] := by
  have := mem_tokenize_length ht
  intro hnil
  rw [hnil] at this
  simp at this

/-- The matchedIn field of a scored candidate is the loop's accumulator. -/
lemma scoreNote_matchedIn (queryTerms : List String) (query : String) (now : ℚ)
    (getTime : String → ℚ) (note : Note) :
    (scoreNote queryTerms query now getTime note).matchedIn
      = (queryTerms.foldl
          (termStep (jsToLower note.name) (jsToLower note.plaintext) (jsToLower query))
          (0, [])).2 := rfl

/-- The relevanceScore field of a scored candidate is the rounded raw score. -/
lemma scoreNote_relevanceScore (queryTerms : List String) (query : String) (now : ℚ)
    (getTime : String → ℚ) (note : Note) :
    (scoreNote queryTerms query now getTime note).relevanceScore
      = round2 (rawScore queryTerms query now getTime note).1 := rfl

/-! ## The claims -/

/-- C1: for every query, scope and positive limit `L`, `searchNotesAdvanced`
first invokes candidate retrieval (`searchNotes`) with limit `L * 2`, then
ranks; the returned list has at most `L` entries and no more than the
candidate list has; and every returned `relevanceScore` is a non-negative
number rounded to 2 decimal places (an integer multiple of 1/100).  With
limit 5 this makes the effective retrieval limit 10, and with 3 candidates at
most 3 results are returned. -/
theorem c1_search_advanced_pipeline
    (retrieve : String → Option String → Option String → Int → List Note)
    (now : ℚ) (getTime : String → ℚ) (query : String)
    (folder account : Option String) (L : Int) (hL : 0 < L) :
    searchNotesAdvanced retrieve now getTime query folder account (some L)
      = rankCandidates query now getTime L
          (searchNotes retrieve query folder account (some (L * 2)))
    ∧ (searchNotesAdvanced retrieve now getTime query folder account (some L)).length
        ≤ L.toNat
    ∧ (searchNotesAdvanced retrieve now getTime query folder account (some L)).length
        ≤ (retrieve query folder account (L * 2)).length
    ∧ ∀ r ∈ searchNotesAdvanced retrieve now getTime query folder account (some L),
        0 ≤ r.relevanceScore ∧ ∃ k : ℤ, r.relevanceScore = (k : ℚ) / 100 := by
  refine ⟨rfl, ?_, ?_, ?_⟩
  · exact length_jsSliceTo_le _ _ hL.le
  · show (jsSliceTo (sortByRelevance ((retrieve query folder account (L * 2)).map
        (scoreNote (tokenize query) query now getTime))) L).length ≤ _
    calc (jsSliceTo (sortByRelevance ((retrieve query folder account (L * 2)).map
            (scoreNote (tokenize query) query now getTime))) L).length
        ≤ (sortByRelevance ((retrieve query folder account (L * 2)).map
            (scoreNote (tokenize query) query now getTime))).length :=
          length_jsSliceTo_le_length _ _
      _ = ((retrieve query folder account (L * 2)).map
            (scoreNote (tokenize query) query now getTime)).length :=
          length_sortByRelevance _
      _ = (retrieve query folder account (L * 2)).length := List.length_map _ _
  · intro r hr
    have h1 : r ∈ sortByRelevance ((retrieve query folder account (L * 2)).map
        (scoreNote (tokenize query) query now getTime)) :=
      List.Sublist.mem hr (jsSliceTo_sublist _ _)
    have h2 := (mem_sortByRelevance r _).mp h1
    rcases List.mem_map.mp h2 with ⟨note, -, rfl⟩
    exact ⟨round2_nonneg (rawScore_fst_nonneg _ _ _ _ _),
      jsRound ((rawScore (tokenize query) query now getTime note).1 * 100), rfl⟩

/-- Witness for C1: limit 5, three matching candidates, retrieval limit 10 —
at most five and at most three results. -/
theorem c1_search_advanced_pipeline_witness :
    (searchNotesAdvanced (fun _ _ _ _ => [noteA, noteAaa, noteAB]) 0 (fun _ => 0)
        "ab" none none (some 5)).length ≤ (5 : Int).toNat
    ∧ (searchNotesAdvanced (fun _ _ _ _ => [noteA, noteAaa, noteAB]) 0 (fun _ => 0)
        "ab" none none (some 5)).length
      ≤ ((fun (_ : String) (_ _ : Option String) (_ : Int) => [noteA, noteAaa, noteAB])
          "ab" none none (5 * 2)).length :=
  ⟨(c1_search_advanced_pipeline (fun _ _ _ _ => [noteA, noteAaa, noteAB]) 0 (fun _ => 0)
      "ab" none none 5 (by norm_num)).2.1,
   (c1_search_advanced_pipeline (fun _ _ _ _ => [noteA, noteAaa, noteAB]) 0 (fun _ => 0)
      "ab" none none 5 (by norm_num)).2.2.1⟩

/-- C2 as stated is false: the code never treats a negative
`daysSinceModified` as zero elapsed time, so a modification date in the
future of `now` yields a bonus above 2 — at 7 days in the future the bonus
is 4. -/
theorem c2_recency_counterexample :
    recencyBonus (-7) = 4 ∧ ¬ recencyBonus (-7) ≤ 2 := by
  have h : recencyBonus (-7) = 4 := by
    unfold recencyBonus
    rw [if_pos (by norm_num : (-7 : ℚ) < 7)]
    rw [max_eq_right (by norm_num : (0 : ℚ) ≤ (7 - (-7)) / 7)]
    norm_num
  exact ⟨h, by rw [h]; norm_num⟩

/-- C2 amended: the recency contribution is exactly
`max 0 ((7 - d) / 7) * 2` when `d < 7` and `0` otherwise, with no clamping of
a negative `d`; hence it is always non-negative, lies in `[0, 2]` exactly
when `d ≥ 0`, exceeds 2 whenever `d < 0`, is exactly 2 at `d = 0` and exactly
0 at `d = 10`. -/
theorem c2_recency_amended (d : ℚ) :
    recencyBonus d = (if d < 7 then max 0 ((7 - d) / 7) * 2 else 0)
    ∧ 0 ≤ recencyBonus d
    ∧ (0 ≤ d → recencyBonus d ≤ 2)
    ∧ (d < 0 → 2 < recencyBonus d)
    ∧ recencyBonus 0 = 2
    ∧ recencyBonus 10 = 0 := by
  refine ⟨rfl, recencyBonus_nonneg d, ?_, ?_, ?_, ?_⟩
  · intro hd
    unfold recencyBonus
    split_ifs with h7
    · have h1 : (7 - d) / 7 ≤ 1 := by
        rw [div_le_one (by norm_num : (0 : ℚ) < 7)]
        linarith
      have h2 : max 0 ((7 - d) / 7) ≤ 1 := max_le (by norm_num) h1
      linarith
    · norm_num
  · intro hd
    unfold recencyBonus
    rw [if_pos (by linarith : d < 7)]
    have h1 : (1 : ℚ) < (7 - d) / 7 := by
      rw [lt_div_iff₀ (by norm_num : (0 : ℚ) < 7)]
      linarith
    rw [max_eq_right (by linarith : (0 : ℚ) ≤ (7 - d) / 7)]
    linarith
  · unfold recencyBonus
    rw [if_pos (by norm_num : (0 : ℚ) < 7)]
    rw [max_eq_right (by norm_num : (0 : ℚ) ≤ ((7 : ℚ) - 0) / 7)]
    norm_num
  · unfold recencyBonus
    rw [if_neg (by norm_num : ¬ (10 : ℚ) < 7)]

/-- C3 as stated is false: the code counts NON-overlapping occurrences.  In
the title "aaa" the term "aa" has two overlapping occurrences, so the claimed
formula would give `3 * 2 + 10 = 16`, but the global-regex count is 1 and the
score computed for that note is 13. -/
theorem c3_overlap_counterexample :
    countOverlapping "aa".data "aaa".data = 2
    ∧ (scoreNote (tokenize "aa") "aa" 604800000 (fun _ => 0) noteAaa).relevanceScore = 13
    ∧ (scoreNote (tokenize "aa") "aa" 604800000 (fun _ => 0) noteAaa).relevanceScore
        ≠ 3 * (countOverlapping "aa".data "aaa".data : ℚ) + 10 := by
  have hscore : (scoreNote (tokenize "aa") "aa" 604800000 (fun _ => 0)
      noteAaa).relevanceScore = 13 := by
    norm_num [scoreNote, rawScore, termStep, noteAaa, recencyBonus, round2, jsRound,
      show tokenize "aa" = ["aa"] from by decide,
      show jsToLower "aaa" = "aaa" from by decide,
      show jsToLower "zzz" = "zzz" from by decide,
      show jsToLower "aa" = "aa" from by decide,
      show countOcc "aa".data "aaa".data = 1 from by decide,
      show countOcc "aa".data "zzz".data = 0 from by decide,
      show jsIncludes "aa".data "aaa".data = true from by decide,
      show jsIncludes "aa".data "zzz".data = false from by decide]
  refine ⟨by decide, hscore, ?_⟩
  rw [hscore, show countOverlapping "aa".data "aaa".data = 2 from by decide]
  norm_num

/-- C3 amended: for each term the ranker adds 3 times the number of
NON-overlapping (leftmost, global-regex) occurrences in the title and 1 times
the number of such occurrences in the body, appending "title" (respectively
"content") to matchedIn at most once, exactly when the corresponding count is
positive and the marker is not yet present. -/
theorem c3_term_scoring_amended (name content lq : String) (acc : ℚ × List String)
    (t : String) :
    (termStep name content lq acc t).1
      = acc.1 + 3 * (countOcc t.data name.data : ℚ) + (countOcc t.data content.data : ℚ)
        + (if jsIncludes lq.data name.data then (10 : ℚ) else 0)
        + (if jsIncludes lq.data content.data then (5 : ℚ) else 0)
    ∧ (termStep name content lq acc t).2
      = acc.2
        ++ (if 0 < countOcc t.data name.data ∧ "title" ∉ acc.2 then ["title"] else [])
        ++ (if 0 < countOcc t.data content.data ∧ "content" ∉ acc.2 then ["content"] else []) :=
  ⟨termStep_fst name content lq acc t, termStep_snd name content lq acc t⟩

/-- C4: the exact-phrase bonus is applied once per qualifying term, not once
per note: with `N` tokenized terms of length > 1, a title containing the
whole query adds `10 * N` and a body containing it adds `5 * N`. -/
theorem c4_phrase_bonus_scales_with_terms (query : String) (now : ℚ)
    (getTime : String → ℚ) (note : Note) :
    (rawScore (tokenize query) query now getTime note).1
      = ((tokenize query).map (fun t =>
            3 * (countOcc t.data (jsToLower note.name).data : ℚ)
              + (countOcc t.data (jsToLower note.plaintext).data : ℚ))).sum
        + (if jsIncludes (jsToLower query).data (jsToLower note.name).data
             then 10 * ((tokenize query).length : ℚ) else 0)
        + (if jsIncludes (jsToLower query).data (jsToLower note.plaintext).data
             then 5 * ((tokenize query).length : ℚ) else 0)
        + recencyBonus ((now - getTime note.modificationDate) / (1000 * 60 * 60 * 24)) := by
  rw [rawScore_fst_eq]
  split_ifs <;> ring

/-- C5 as stated is false: with an empty term set (here the query "a b",
whose tokens are all single characters) the exact-phrase bonus is NEVER
applied, because the phrase check lives inside the per-term loop — even
though the raw query is a literal substring of the title, the score is just
the recency bonus (here 0, the note being 7 days old), not 10. -/
theorem c5_phrase_bonus_dead_counterexample :
    tokenize "a b" = []
    ∧ jsIncludes (jsToLower "a b").data (jsToLower noteAB.name).data = true
    ∧ (scoreNote (tokenize "a b") "a b" 604800000 (fun _ => 0) noteAB).relevanceScore = 0
    ∧ (scoreNote (tokenize "a b") "a b" 604800000 (fun _ => 0) noteAB).relevanceScore
        ≠ 10 := by
  have hscore : (scoreNote (tokenize "a b") "a b" 604800000 (fun _ => 0)
      noteAB).relevanceScore = 0 := by
    norm_num [scoreNote, rawScore, recencyBonus, round2, jsRound,
      show tokenize "a b" = [] from by decide]
  exact ⟨by decide, by decide, hscore, by rw [hscore]; norm_num⟩

/-- C5 amended: when the tokenized term set is empty, a candidate's score is
exactly the rounded recency bonus and its matchedIn is empty; the exact-phrase
bonus does NOT apply, being inside the per-term loop. -/
theorem c5_empty_terms_score_amended (query : String) (now : ℚ)
    (getTime : String → ℚ) (note : Note) (h : tokenize query = []) :
    (scoreNote (tokenize query) query now getTime note).relevanceScore
      = round2 (recencyBonus ((now - getTime note.modificationDate) / (1000 * 60 * 60 * 24)))
    ∧ (scoreNote (tokenize query) query now getTime note).matchedIn = [] := by
  rw [scoreNote_relevanceScore, scoreNote_matchedIn, h]
  constructor
  · show round2 ((List.foldl _ (0, []) []).1 + recencyBonus _) = _
    norm_num
  · rfl

/-- Witness for C5's amended claim at the whitespace-and-single-character
query "a b". -/
theorem c5_empty_terms_score_witness :
    (scoreNote (tokenize "a b") "a b" 0 (fun _ => 0) noteAB).matchedIn = [] :=
  (c5_empty_terms_score_amended "a b" 0 (fun _ => 0) noteAB (by decide)).2

/-- C6 as stated is false: a whitespace-only query is truthy in JavaScript,
so `if (!args.query)` does not fire — both tools accept the query " " and
invoke retrieval (the store's answer [noteA] flows through). -/
theorem c6_whitespace_query_counterexample :
    handleSearchTool (fun _ _ _ _ => [noteA]) (some " ") none none none
      = Except.ok [noteA]
    ∧ handleSearchAdvancedTool (fun _ _ _ _ => [noteA]) 0 (fun _ => 0) (some " ")
        none none none
      = Except.ok (searchNotesAdvanced (fun _ _ _ _ => [noteA]) 0 (fun _ => 0) " "
          none none none) :=
  ⟨rfl, rfl⟩

/-- C6 amended: only a missing query or the empty string fail validation;
then both tools return the validation error without invoking the store
(the result is the same for every store function). -/
theorem c6_empty_query_amended
    (store retrieve : String → Option String → Option String → Int → List Note)
    (now : ℚ) (getTime : String → ℚ) (folder account : Option String)
    (limit : Option Int) (query : Option String)
    (h : query = none ∨ query = some "") :
    handleSearchTool store query folder account limit
      = Except.error "query is required"
    ∧ handleSearchAdvancedTool retrieve now getTime query folder account limit
      = Except.error "query is required" := by
  rcases h with rfl | rfl
  · exact ⟨rfl, rfl⟩
  · exact ⟨rfl, rfl⟩

/-- Witness for C6's amended claim at a missing query. -/
theorem c6_empty_query_witness :
    handleSearchTool (fun _ _ _ _ => []) none none none none
      = Except.error "query is required" :=
  (c6_empty_query_amended (fun _ _ _ _ => []) (fun _ _ _ _ => []) 0 (fun _ => 0)
    none none none none (Or.inl rfl)).1

/-- C7 as stated is false: a JavaScript destructuring default replaces only a
missing value, so `limit: 0` stays 0 (the advanced search then returns no
results where the claimed fallback to 50 would return one). -/
theorem c7_limit_fallback_counterexample :
    effectiveLimit (some 0) = 0
    ∧ effectiveLimit (some 0) ≠ 50
    ∧ searchNotesAdvanced (fun _ _ _ _ => [noteA]) 0 (fun _ => 0) "ab" none none
        (some 0) = []
    ∧ searchNotesAdvanced (fun _ _ _ _ => [noteA]) 0 (fun _ => 0) "ab" none none
        none ≠ [] := by
  refine ⟨rfl, by decide, rfl, ?_⟩
  exact List.cons_ne_nil _ _

/-- C7 amended: a missing limit falls back to 50, but an explicit limit —
zero or negative included — is used exactly as given. -/
theorem c7_limit_fallback_amended (n : Int)
    (store : String → Option String → Option String → Int → List Note)
    (query : String) (folder account : Option String) :
    effectiveLimit none = 50
    ∧ effectiveLimit (some n) = n
    ∧ searchNotes store query folder account none = store query folder account 50
    ∧ searchNotes store query folder account (some n) = store query folder account n :=
  ⟨rfl, rfl, rfl, rfl⟩

/-- C8: the advanced search output is sorted descending by relevanceScore
(any earlier entry scores at least any later one), and the sort is stable:
for every score value, the entries holding it appear in exactly their input
(retrieval) order. -/
theorem c8_output_sorted_and_stable
    (retrieve : String → Option String → Option String → Int → List Note)
    (now : ℚ) (getTime : String → ℚ) (query : String)
    (folder account : Option String) (limit : Option Int)
    (l : List SearchResult) (s : ℚ) :
    (searchNotesAdvanced retrieve now getTime query folder account limit).Pairwise
      (fun a b => b.relevanceScore ≤ a.relevanceScore)
    ∧ (sortByRelevance l).filter (fun r => decide (r.relevanceScore = s))
        = l.filter (fun r => decide (r.relevanceScore = s)) := by
  constructor
  · exact List.Pairwise.sublist (jsSliceTo_sublist _ _) (pairwise_sortByRelevance _)
  · exact filter_sortByRelevance s l

/-- C9: every result of the advanced search is one retrieved note extended
with the fresh relevanceScore and matchedIn fields; the Note fields are
carried over unchanged (value semantics — the ranker never mutates the
candidates). -/
theorem c9_result_fields_unchanged
    (retrieve : String → Option String → Option String → Int → List Note)
    (now : ℚ) (getTime : String → ℚ) (query : String)
    (folder account : Option String) (limit : Option Int) (r : SearchResult)
    (hr : r ∈ searchNotesAdvanced retrieve now getTime query folder account limit) :
    ∃ note ∈ searchNotes retrieve query folder account (some (effectiveLimit limit * 2)),
      r = scoreNote (tokenize query) query now getTime note
      ∧ r.toNote = note
      ∧ r.id = note.id ∧ r.name = note.name ∧ r.plaintext = note.plaintext
      ∧ r.folder = note.folder ∧ r.account = note.account
      ∧ r.creationDate = note.creationDate
      ∧ r.modificationDate = note.modificationDate := by
  have h1 : r ∈ sortByRelevance ((searchNotes retrieve query folder account
      (some (effectiveLimit limit * 2))).map (scoreNote (tokenize query) query now getTime)) :=
    List.Sublist.mem hr (jsSliceTo_sublist _ _)
  have h2 := (mem_sortByRelevance r _).mp h1
  rcases List.mem_map.mp h2 with ⟨note, hnote, rfl⟩
  exact ⟨note, hnote, rfl, rfl, rfl, rfl, rfl, rfl, rfl, rfl, rfl⟩

/-- Witness for C9 with one concrete candidate. -/
theorem c9_result_fields_unchanged_witness :
    ∃ note ∈ searchNotes (fun _ _ _ _ => [noteA]) "ab" none none
        (some (effectiveLimit (some 5) * 2)),
      scoreNote (tokenize "ab") "ab" 0 (fun _ => 0) noteA
        = scoreNote (tokenize "ab") "ab" 0 (fun _ => 0) note
      ∧ (scoreNote (tokenize "ab") "ab" 0 (fun _ => 0) noteA).toNote = note
      ∧ (scoreNote (tokenize "ab") "ab" 0 (fun _ => 0) noteA).id = note.id
      ∧ (scoreNote (tokenize "ab") "ab" 0 (fun _ => 0) noteA).name = note.name
      ∧ (scoreNote (tokenize "ab") "ab" 0 (fun _ => 0) noteA).plaintext = note.plaintext
      ∧ (scoreNote (tokenize "ab") "ab" 0 (fun _ => 0) noteA).folder = note.folder
      ∧ (scoreNote (tokenize "ab") "ab" 0 (fun _ => 0) noteA).account = note.account
      ∧ (scoreNote (tokenize "ab") "ab" 0 (fun _ => 0) noteA).creationDate
          = note.creationDate
      ∧ (scoreNote (tokenize "ab") "ab" 0 (fun _ => 0) noteA).modificationDate
          = note.modificationDate :=
  c9_result_fields_unchanged (fun _ _ _ _ => [noteA]) 0 (fun _ => 0) "ab" none none
    (some 5) (scoreNote (tokenize "ab") "ab" 0 (fun _ => 0) noteA)
    (by exact List.mem_singleton_self _)

/-- C10: a result's matchedIn is empty exactly when no qualifying query term
occurs (case-insensitively, as a substring) in its title or plaintext body;
and on the concrete input "ab" against a candidate that contains no term but
was modified 0 days before now, the single result has empty matchedIn and a
strictly positive relevanceScore (2), so an empty matchedIn does not imply a
zero score. -/
theorem c10_matchedIn_empty_iff_no_term_occurs :
    (∀ (query : String) (now : ℚ) (getTime : String → ℚ) (note : Note),
      ((scoreNote (tokenize query) query now getTime note).matchedIn = [] ↔
        ∀ t ∈ tokenize query,
          jsIncludes t.data (jsToLower note.name).data = false
          ∧ jsIncludes t.data (jsToLower note.plaintext).data = false))
    ∧ (searchNotesAdvanced (fun _ _ _ _ => [noteA]) 0 (fun _ => 0) "ab" none none
        (some 5)).map (fun r => (r.matchedIn, r.relevanceScore)) = [([], 2)]
    ∧ (0 : ℚ) < 2 := by
  refine ⟨?_, ?_, by norm_num⟩
  · intro query now getTime note
    have hm : ∀ x, x ∈ (scoreNote (tokenize query) query now getTime note).matchedIn ↔
        (x = "title" ∧ ∃ t ∈ tokenize query,
          0 < countOcc t.data (jsToLower note.name).data)
        ∨ (x = "content" ∧ ∃ t ∈ tokenize query,
          0 < countOcc t.data (jsToLower note.plaintext).data) := by
      intro x
      rw [scoreNote_matchedIn]
      have h := mem_termScore_snd (jsToLower note.name) (jsToLower note.plaintext)
        (jsToLower query) (tokenize query) (0, []) x
      simpa using h
    constructor
    · intro hempty t ht
      have hT : ("title" : String) ∉
          (scoreNote (tokenize query) query now getTime note).matchedIn := by
        rw [hempty]; exact List.not_mem_nil _
      have hC : ("content" : String) ∉
          (scoreNote (tokenize query) query now getTime note).matchedIn := by
        rw [hempty]; exact List.not_mem_nil _
      constructor
      · cases hjs : jsIncludes t.data (jsToLower note.name).data
        · rfl
        · exfalso
          have hpos := (countOcc_pos_iff _ (mem_tokenize_ne_nil ht) _).mpr hjs
          exact hT ((hm "title").mpr (Or.inl ⟨rfl, t, ht, hpos⟩))
      · cases hjs : jsIncludes t.data (jsToLower note.plaintext).data
        · rfl
        · exfalso
          have hpos := (countOcc_pos_iff _ (mem_tokenize_ne_nil ht) _).mpr hjs
          exact hC ((hm "content").mpr (Or.inr ⟨rfl, t, ht, hpos⟩))
    · intro hall
      rw [List.eq_nil_iff_forall_not_mem]
      intro x hx
      rcases (hm x).mp hx with ⟨-, t, ht, hpos⟩ | ⟨-, t, ht, hpos⟩
      · have := (countOcc_pos_iff _ (mem_tokenize_ne_nil ht) _).mp hpos
        rw [(hall t ht).1] at this
        exact Bool.false_ne_true this
      · have := (countOcc_pos_iff _ (mem_tokenize_ne_nil ht) _).mp hpos
        rw [(hall t ht).2] at this
        exact Bool.false_ne_true this
  · have hmain : searchNotesAdvanced (fun _ _ _ _ => [noteA]) 0 (fun _ => 0) "ab"
        none none (some 5) = [scoreNote (tokenize "ab") "ab" 0 (fun _ => 0) noteA] := rfl
    rw [hmain]
    simp only [List.map_cons, List.map_nil]
    have h1 : (scoreNote (tokenize "ab") "ab" 0 (fun _ => 0) noteA).matchedIn = [] := by
      decide
    have h2 : (scoreNote (tokenize "ab") "ab" 0 (fun _ => 0) noteA).relevanceScore = 2 := by
      norm_num [scoreNote_relevanceScore, rawScore_fst_eq, recencyBonus, round2, jsRound,
        show tokenize "ab" = ["ab"] from by decide,
        show countOcc "ab".data (jsToLower noteA.name).data = 0 from by decide,
        show countOcc "ab".data (jsToLower noteA.plaintext).data = 0 from by decide,
        show jsIncludes (jsToLower "ab").data (jsToLower noteA.name).data = false
          from by decide,
        show jsIncludes (jsToLower "ab").data (jsToLower noteA.plaintext).data = false
          from by decide]
    rw [h1, h2]

end NotesMCP
